import Mathlib

/-!
# Verification of the event-tracker server

Shallow embedding of `src/event-tracker/src/event_tracker/server.py`:
the tracker state (companies, contacts, last_check), the merge performed
by the `scan-event-website` tool, the enrichment loop of the
`enrich-contacts` tool (search, merge, rate-limit sleep, batch enroll,
save), the diff computation of the `get-changes` tool, and the
persistence write path (`save_data` via `Path.write_text`).

Python dicts are embedded as insertion-ordered association lists
(`List (String × α)`): assigning to an existing key replaces the value in
place, assigning to a fresh key appends.  Timestamps (`datetime.now()`)
are abstracted to a `Nat` instant: all `datetime.now()` calls made during
a single operation are modelled as the same instant, the operation's
`now` parameter.  External calls (Apollo search / enroll, page
extraction) are passed in as explicit arguments describing their
outcomes; effects visible to the caller (search calls, the rate-limit
sleep, the enroll call, the state save) are recorded in an explicit
event trace.  Both except-handlers of the enrichment branch call the
async method `session.send_log_message` *without* `await` (server.py
lines 235-238 and 248-251), so they only construct a coroutine that is
discarded unexecuted: no log notification is ever sent, and accordingly
no log event ever appears in a trace.
-/

namespace EventTracker

/-- The `Company` dataclass (server.py lines 17-23). -/
structure Company where
  name : String
  website : String
  type : String
  first_seen : Nat
  last_seen : Nat
deriving Repr, DecidableEq

/-- The `Contact` dataclass (server.py lines 25-31). -/
structure Contact where
  name : String
  title : String
  company : String
  email : String
  apollo_id : String
deriving Repr, DecidableEq

/-- One record returned by the Apollo people search: the fields of
`person` read at server.py lines 220-227 (`name`, `title`, `email`,
`id`). -/
structure Person where
  name : String
  title : String
  email : String
  id : String
deriving Repr, DecidableEq

/-- Lookup in a Python dict embedded as an insertion-ordered association
list: `d[k]` / `k in d`. -/
def dlookup (k : String) : List (String × α) → Option α
  | [] => none
  | p :: rest => if p.1 = k then some p.2 else dlookup k rest

/-- Assignment `d[k] = v` on a Python dict: replaces the value in place
when the key is present (keeping its position), appends otherwise. -/
def dinsert (k : String) (v : α) : List (String × α) → List (String × α)
  | [] => [(k, v)]
  | p :: rest => if p.1 = k then (k, v) :: rest else p :: dinsert k v rest

/-- Python `d.keys()`. -/
def dkeys (l : List (String × α)) : List String := l.map Prod.fst

/-- Python `d.values()`. -/
def dvalues (l : List (String × α)) : List α := l.map Prod.snd

/-- The in-memory state of the `EventTracker` class (server.py lines
33-39): `companies` keyed by company name, `contacts` keyed by Apollo
contact id, `last_check` unset (`None`) until the first scan. -/
structure TrackerState where
  companies : List (String × Company)
  contacts : List (String × Contact)
  last_check : Option Nat
deriving Repr, DecidableEq

/-- Exceptions raised by the Python code paths modelled here:
`UnboundLocalError` for reading a local variable that was never assigned
on the taken path, `ValueError` for the explicit `raise ValueError`. -/
inductive PyError where
  | unboundLocalError (varName : String)
  | valueError (msg : String)
deriving Repr, DecidableEq

/-- Caller-visible effects of one `enrich-contacts` run, in order: the
Apollo search call for a company (line 215), the rate-limit sleep (line
232), the enroll call `add_to_sequence` (line 243), and the
`save_data()` call (line 253).  The constructor `logError` stands for an
error log notification actually delivered to the client session.  The
program never produces one: its two `send_log_message` calls (lines
235-238 and 248-251) invoke an `async def` method without `await`, so
the coroutine is created and discarded without running.  The constructor
exists so that the absence of logging is expressible in statements. -/
inductive Ev where
  | search (companyName : String)
  | sleep
  | logError (msg : String)
  | enroll (sequenceId : String) (contactIds : List String)
  | save
deriving Repr, DecidableEq

/-- One `.sponsor` or `.attendee` element of the scanned page: its
`.name` text and its anchor `href` (server.py lines 154-170). -/
structure PageEntry where
  text : String
  href : String
deriving Repr, DecidableEq

/-- The function `extract_companies` (server.py lines 146-172): builds a `Company`
per sponsor element (type `"sponsor"`) then per attendee element (type
`"attendee"`), with `first_seen` and `last_seen` both set by
`datetime.now()` at extraction, modelled as the operation instant
`now`. -/
def extract_companies (now : Nat) (sponsors attendees : List PageEntry) :
    List Company :=
  sponsors.map (fun s =>
    { name := s.text, website := s.href, type := "sponsor",
      first_seen := now, last_seen := now }) ++
  attendees.map (fun a =>
    { name := a.text, website := a.href, type := "attendee",
      first_seen := now, last_seen := now })

/-- One iteration of the merge loop of `scan-event-website` (server.py
lines 188-192): if the company name is already tracked, only its
`last_seen` is set to `now`; otherwise the extracted record is inserted
as is. -/
def mergeStep (now : Nat) (acc : List (String × Company)) (company : Company) :
    List (String × Company) :=
  match dlookup company.name acc with
  | some old => dinsert company.name { old with last_seen := now } acc
  | none => dinsert company.name company acc

/-- The whole merge loop `for company in companies: ...` (server.py
lines 188-192). -/
def mergeCompanies (now : Nat) (companies : List Company)
    (tracked : List (String × Company)) : List (String × Company) :=
  companies.foldl (mergeStep now) tracked

/-- The `scan-event-website` branch of `handle_call_tool` (server.py
lines 179-203), given the page content already extracted: merges the
extracted companies, sets `last_check`, and returns the report text.
(The `save_data()` call persists the returned state; see `save_data`.) -/
def scanEventWebsite (now : Nat) (sponsors attendees : List PageEntry)
    (st : TrackerState) : TrackerState × String :=
  let companies := extract_companies now sponsors attendees
  let companies2 := mergeCompanies now companies st.companies
  ({ st with companies := companies2, last_check := some now },
   "Found " ++ toString companies.length ++ " companies: " ++
     String.intercalate ", " (companies.map Company.name))

/-- The `Contact(...)` construction at server.py lines 221-227. -/
def personToContact (companyName : String) (p : Person) : Contact :=
  { name := p.name, title := p.title, company := companyName,
    email := p.email, apollo_id := p.id }

/-- The inner loop `for person in people:` (server.py lines 220-229):
each person is turned into a `Contact`, stored in `tracker.contacts`
under its `apollo_id`, and appended to `new_contacts`.  Returns the
updated contact dict and the extended `new_contacts` list. -/
def mergePeople (companyName : String) (people : List Person)
    (contacts : List (String × Contact)) (new_contacts : List Contact) :
    List (String × Contact) × List Contact :=
  match people with
  | [] => (contacts, new_contacts)
  | p :: rest =>
      let contact := personToContact companyName p
      mergePeople companyName rest
        (dinsert contact.apollo_id contact contacts) (new_contacts ++ [contact])

/-- The outer loop `for company in tracker.companies.values():`
(server.py lines 213-238).  `searchFn` gives the outcome of
`apollo_client.search_people(company.name, ["director", "executive",
"vp"])` for each company name; the fixed seniority list is folded into
it.  A successful search merges its people and is followed by
`await asyncio.sleep(1)` (event `.sleep`).  Any exception in the `try`
body is caught by the handler at lines 234-238; the handler's
`send_log_message` call is missing `await`, so it only constructs a
coroutine that is never executed — no log notification is emitted and
the error value is otherwise discarded — after which the loop continues
with the next company.  A failed search therefore contributes only its
`.search` event to the trace. -/
def enrichLoop (searchFn : String → Except String (List Person)) :
    List Company → List (String × Contact) → List Contact → List Ev →
    List (String × Contact) × List Contact × List Ev
  | [], contacts, new_contacts, evs => (contacts, new_contacts, evs)
  | company :: rest, contacts, new_contacts, evs =>
      match searchFn company.name with
      | .ok people =>
          let r := mergePeople company.name people contacts new_contacts
          enrichLoop searchFn rest r.1 r.2
            (evs ++ [.search company.name, .sleep])
      | .error _ =>
          enrichLoop searchFn rest contacts new_contacts
            (evs ++ [.search company.name])

/-- The `enrich-contacts` branch of `handle_call_tool` (server.py lines
205-260), with `sequence_id` present (the missing-argument check at
lines 206-207 is taken to have passed).  `enrollOutcome` is the outcome
of `apollo_client.add_to_sequence`; it is consulted only when
`new_contacts` is non-empty (line 241).  An enroll failure is caught at
lines 247-251; the handler's `send_log_message` call is again missing
`await`, so no log notification is emitted and the failure leaves no
trace event — both outcomes of a performed enroll call produce the same
visible events.  `save_data()` runs unconditionally at line 253 (event
`.save`).  The result carries the new state, the report text of line
258, and the event trace. -/
def enrichContacts (sequence_id : String)
    (searchFn : String → Except String (List Person))
    (enrollOutcome : Except String Unit) (st : TrackerState) :
    Except PyError (TrackerState × String × List Ev) :=
  let r := enrichLoop searchFn (dvalues st.companies) st.contacts [] []
  let contacts2 := r.1
  let new_contacts := r.2.1
  let evs := r.2.2
  let evs2 :=
    if new_contacts.isEmpty then evs
    else
      match enrollOutcome with
      | .ok _ =>
          evs ++ [.enroll sequence_id (new_contacts.map Contact.apollo_id)]
      | .error _ =>
          evs ++ [.enroll sequence_id (new_contacts.map Contact.apollo_id)]
  .ok ({ st with contacts := contacts2 },
       "Added " ++ toString new_contacts.length ++ " contacts to sequence",
       evs2 ++ [.save])

/-- The `get-changes` branch of `handle_call_tool` (server.py lines
262-285).  When `last_check` is unset the fixed text is returned.  When
it is set, line 271 evaluates the local variable `url`, which is
assigned only inside the `scan-event-website` branch and therefore never
on this path, so Python raises `UnboundLocalError` before any diff is
computed; the code at lines 272-284 is unreachable. -/
def getChanges (st : TrackerState) : Except PyError String :=
  match st.last_check with
  | none => .ok "No previous scan to compare with"
  | some _ => .error (.unboundLocalError "url")

/-- The diff computation of the `get-changes` branch (server.py lines
271-276), taken in isolation: `current_names` is the set of extracted
company names, `previous_names` the set of tracked keys, and the result
is `(current_names - previous_names, previous_names - current_names)`. -/
def computeChanges (companies : List Company)
    (tracked : List (String × Company)) : Finset String × Finset String :=
  let current_names := (companies.map Company.name).toFinset
  let previous_names := (dkeys tracked).toFinset
  (current_names \ previous_names, previous_names \ current_names)

/-- The serialization performed by `save_data` (server.py lines 52-58):
`json.dumps` of the full state — every field of every company and
contact record plus `last_check` — with `default=str`.  The claims
proved here depend on the whole state being serialized, not on the exact
rendering, so a simple flat rendering stands in for the JSON syntax. -/
def serializeCompany (c : Company) : String :=
  c.name ++ "," ++ c.website ++ "," ++ c.type ++ "," ++
    toString c.first_seen ++ "," ++ toString c.last_seen

/-- Serialization of one contact record; see `serializeCompany`. -/
def serializeContact (c : Contact) : String :=
  c.name ++ "," ++ c.title ++ "," ++ c.company ++ "," ++ c.email ++ "," ++
    c.apollo_id

/-- Serialization of the full tracker state; see `serializeCompany`. -/
def serializeState (st : TrackerState) : String :=
  String.intercalate ";"
      (st.companies.map (fun p => p.1 ++ "=" ++ serializeCompany p.2)) ++
    "|" ++
    String.intercalate ";"
      (st.contacts.map (fun p => p.1 ++ "=" ++ serializeContact p.2)) ++
    "|" ++ (match st.last_check with | none => "null" | some n => toString n)

/-- The write path `pathlib.Path.write_text`, used by `save_data` at
server.py line 58.
CPython opens the file in mode `"w"`, which truncates it, and then
writes the content in place; there is no write-to-temporary-and-rename.
`failAfter = none` models a write that completes; `failAfter = some k`
models an I/O failure after `k` characters have been written, which
leaves the file holding just that prefix of the new content.  Returns
the resulting file content (`none` = no file) and whether the write
succeeded. -/
def write_text (content : String) (failAfter : Option Nat)
    (fileState : Option String) : Option String × Bool :=
  match failAfter with
  | none => (some content, true)
  | some k => (some (content.take k), false)

/-- The method `save_data` (server.py lines 52-58): serializes the full state and
overwrites the snapshot file via `Path.write_text`. -/
def save_data (st : TrackerState) (failAfter : Option Nat)
    (fileState : Option String) : Option String × Bool :=
  write_text (serializeState st) failAfter fileState

/-- Projection: the state component of an `enrich-contacts` result
(`dflt` is returned on the error case, which never occurs). -/
def resultState (dflt : TrackerState)
    (r : Except PyError (TrackerState × String × List Ev)) : TrackerState :=
  match r with
  | .ok a => a.1
  | .error _ => dflt

/-- Projection: the report text of an `enrich-contacts` result. -/
def resultMsg (r : Except PyError (TrackerState × String × List Ev)) :
    String :=
  match r with
  | .ok a => a.2.1
  | .error _ => ""

/-- Projection: the event trace of an `enrich-contacts` result. -/
def resultEvs (r : Except PyError (TrackerState × String × List Ev)) :
    List Ev :=
  match r with
  | .ok a => a.2.2
  | .error _ => []

/-- Whether an `Except` result is a normal return (no exception
propagated). -/
def exceptOk : Except ε α → Bool
  | .ok _ => true
  | .error _ => false

/-- Here `concatMap f l` concatenates `f a` over the elements of `l`, used to
describe per-company pieces of an enrichment run. -/
def concatMap (f : α → List β) : List α → List β
  | [] => []
  | a :: rest => f a ++ concatMap f rest

/-- All contact ids returned by the successful searches of a run, in
order, duplicates included. -/
def successIds (searchFn : String → Except String (List Person))
    (companies : List Company) : List String :=
  concatMap (fun c =>
    match searchFn c.name with
    | .ok people => people.map Person.id
    | .error _ => []) companies

/-- The `Contact` records a run appends to `new_contacts`, in order: one
per person of every successful search. -/
def newContactsOf (searchFn : String → Except String (List Person))
    (companies : List Company) : List Contact :=
  concatMap (fun c =>
    match searchFn c.name with
    | .ok people => people.map (personToContact c.name)
    | .error _ => []) companies

/-- The contact dict updates of one successful search, keyed by
`apollo_id` (= the person's `id`). -/
def mergeAllPeople (companyName : String) (people : List Person)
    (contacts : List (String × Contact)) : List (String × Contact) :=
  match people with
  | [] => contacts
  | p :: rest =>
      mergeAllPeople companyName rest
        (dinsert p.id (personToContact companyName p) contacts)

/-- The cumulative contact dict updates of a whole run. -/
def mergeAll (searchFn : String → Except String (List Person)) :
    List Company → List (String × Contact) → List (String × Contact)
  | [], contacts => contacts
  | c :: rest, contacts =>
      match searchFn c.name with
      | .ok people => mergeAll searchFn rest (mergeAllPeople c.name people contacts)
      | .error _ => mergeAll searchFn rest contacts

/-- The events one company contributes to the trace: its search call,
followed by the rate-limit sleep only on success; a failed search
contributes no further event (the sleep is skipped and the attempted
log call never runs). -/
def companyBlock (searchFn : String → Except String (List Person))
    (c : Company) : List Ev :=
  match searchFn c.name with
  | .ok _ => [.search c.name, .sleep]
  | .error _ => [.search c.name]

/-- The events of the enroll phase: nothing when no contacts
accumulated, otherwise the enroll call; its outcome produces no
further visible event (the failure handler's log call never runs). -/
def enrollBlock (sequence_id : String)
    (searchFn : String → Except String (List Person))
    (st : TrackerState) : List Ev :=
  if (newContactsOf searchFn (dvalues st.companies)).isEmpty then []
  else
    [.enroll sequence_id
      ((newContactsOf searchFn (dvalues st.companies)).map
        Contact.apollo_id)]

/-- Returns `true` for every event that is not a search call. -/
def notSearch : Ev → Bool
  | .search _ => false
  | _ => true

/-- Scanning forward from just after a search call: does a sleep occur
before the next search call (or the trace end)? -/
def sleepBeforeNextSearch : List Ev → Bool
  | [] => true
  | Ev.sleep :: _ => true
  | Ev.search _ :: _ => false
  | _ :: rest => sleepBeforeNextSearch rest

/-- Whether every pair of successive search calls in a trace has a sleep
strictly between them. -/
def searchesSleepSeparated : List Ev → Bool
  | [] => true
  | Ev.search _ :: rest => sleepBeforeNextSearch rest && searchesSleepSeparated rest
  | _ :: rest => searchesSleepSeparated rest

/-- Number of enroll calls in a trace. -/
def enrollCount : List Ev → Nat
  | [] => 0
  | Ev.enroll _ _ :: rest => enrollCount rest + 1
  | _ :: rest => enrollCount rest

/-- Number of delivered error-log notifications in a trace. -/
def logCount : List Ev → Nat
  | [] => 0
  | Ev.logError _ :: rest => logCount rest + 1
  | _ :: rest => logCount rest

/-- Modelled from the spec's words, for comparison with the code's
report: the number of distinct contact ids that were newly merged in a
run — ids occurring in a successful search result but not already
present in the contact mapping before the run, each counted once. -/
def specDistinctNewCount (searchFn : String → Except String (List Person))
    (companies : List Company) (contacts : List (String × Contact)) : Nat :=
  ((successIds searchFn companies).toFinset \ (dkeys contacts).toFinset).card

/-- A concrete tracked company used in concrete evaluations. -/
def acme : Company :=
  { name := "Acme", website := "a.example", type := "sponsor",
    first_seen := 1, last_seen := 2 }

/-- A second concrete company. -/
def bravo : Company :=
  { name := "Bravo", website := "b.example", type := "attendee",
    first_seen := 1, last_seen := 1 }

/-- A concrete stored contact with Apollo id `"x1"`. -/
def contactX : Contact :=
  { name := "Xavier", title := "CEO", company := "Acme", email := "x@acme",
    apollo_id := "x1" }

/-- A concrete search-result person whose id `"x1"` matches
`contactX`. -/
def personX : Person :=
  { name := "Xavier", title := "CEO", email := "x@acme", id := "x1" }

/-- A search outcome function that returns `[personX]` for every
company. -/
def searchAllX : String → Except String (List Person) :=
  fun _ => .ok [personX]

/-- A search outcome function that fails for `"Acme"` and succeeds with
no results otherwise. -/
def searchAcmeFails : String → Except String (List Person) :=
  fun n => if n = "Acme" then .error "boom" else .ok []

/-- State tracking `Acme` with contact `x1` already stored. -/
def stPrior : TrackerState :=
  { companies := [("Acme", acme)], contacts := [("x1", contactX)],
    last_check := some 1 }

/-- State tracking `Acme` and `Bravo` with no stored contacts. -/
def stTwo : TrackerState :=
  { companies := [("Acme", acme), ("Bravo", bravo)], contacts := [],
    last_check := some 1 }

/-- State tracking only `Acme`, no stored contacts. -/
def stOne : TrackerState :=
  { companies := [("Acme", acme)], contacts := [], last_check := some 7 }

theorem dlookup_dinsert (k k' : String) (v : α) (l : List (String × α)) :
    dlookup k' (dinsert k v l) = if k = k' then some v else dlookup k' l := by
  induction l with
  | nil => simp [dinsert, dlookup]
  | cons p rest ih =>
      by_cases hpk : p.1 = k
      · have hd : dinsert k v (p :: rest) = (k, v) :: rest := by
          simp [dinsert, hpk]
        rw [hd]
        by_cases hkk : k = k'
        · simp [dlookup, hkk]
        · have hp' : ¬ p.1 = k' := by rw [hpk]; exact hkk
          simp [dlookup, hkk, hp']
      · have hd : dinsert k v (p :: rest) = p :: dinsert k v rest := by
          simp [dinsert, hpk]
        rw [hd]
        by_cases hp' : p.1 = k'
        · have hkk : ¬ k = k' := fun h => hpk (hp'.trans h.symm)
          simp [dlookup, hp', hkk]
        · simp [dlookup, hp', ih]

theorem dlookup_eq_none_iff (k : String) (l : List (String × α)) :
    dlookup k l = none ↔ k ∉ dkeys l := by
  induction l with
  | nil => simp [dlookup, dkeys]
  | cons p rest ih =>
      by_cases hp : p.1 = k
      · constructor
        · intro h; simp [dlookup, hp] at h
        · intro h
          exact absurd (show k ∈ dkeys (p :: rest) from by
            rw [show dkeys (p :: rest) = p.1 :: dkeys rest from rfl, hp]
            exact List.mem_cons_self _ _) h
      · have hd : dlookup k (p :: rest) = dlookup k rest := by simp [dlookup, hp]
        rw [hd, ih]
        constructor
        · intro h hmem
          have hmem' : k ∈ p.1 :: dkeys rest := hmem
          rcases List.mem_cons.mp hmem' with h1 | h2
          · exact hp h1.symm
          · exact h h2
        · intro h hmem
          exact h (List.mem_cons_of_mem _ hmem)

theorem mem_dkeys_dinsert_self (k : String) (v : α) (l : List (String × α)) :
    k ∈ dkeys (dinsert k v l) := by
  induction l with
  | nil => exact List.mem_cons_self _ _
  | cons p rest ih =>
      by_cases hp : p.1 = k
      · have hd : dinsert k v (p :: rest) = (k, v) :: rest := by
          simp [dinsert, hp]
        rw [hd]
        exact List.mem_cons_self _ _
      · have hd : dinsert k v (p :: rest) = p :: dinsert k v rest := by
          simp [dinsert, hp]
        rw [hd]
        exact List.mem_cons_of_mem _ ih

theorem mem_dkeys_dinsert_of_mem (k k' : String) (v : α)
    (l : List (String × α)) (h : k' ∈ dkeys l) :
    k' ∈ dkeys (dinsert k v l) := by
  induction l with
  | nil => exact absurd h (by simp [dkeys])
  | cons p rest ih =>
      have h' : k' ∈ p.1 :: dkeys rest := h
      by_cases hp : p.1 = k
      · have hd : dinsert k v (p :: rest) = (k, v) :: rest := by
          simp [dinsert, hp]
        rw [hd]
        rcases List.mem_cons.mp h' with h1 | h2
        · show k' ∈ k :: dkeys rest
          rw [h1, hp]
          exact List.mem_cons_self _ _
        · exact List.mem_cons_of_mem _ h2
      · have hd : dinsert k v (p :: rest) = p :: dinsert k v rest := by
          simp [dinsert, hp]
        rw [hd]
        rcases List.mem_cons.mp h' with h1 | h2
        · show k' ∈ p.1 :: dkeys (dinsert k v rest)
          rw [h1]
          exact List.mem_cons_self _ _
        · exact List.mem_cons_of_mem _ (ih h2)

theorem dkeys_dinsert_of_mem (k : String) (v : α) (l : List (String × α))
    (h : k ∈ dkeys l) : dkeys (dinsert k v l) = dkeys l := by
  induction l with
  | nil => exact absurd h (by simp [dkeys])
  | cons p rest ih =>
      have h' : k ∈ p.1 :: dkeys rest := h
      by_cases hp : p.1 = k
      · have hd : dinsert k v (p :: rest) = (k, v) :: rest := by
          simp [dinsert, hp]
        rw [hd]
        show k :: dkeys rest = p.1 :: dkeys rest
        rw [hp]
      · have hd : dinsert k v (p :: rest) = p :: dinsert k v rest := by
          simp [dinsert, hp]
        rw [hd]
        show p.1 :: dkeys (dinsert k v rest) = p.1 :: dkeys rest
        rcases List.mem_cons.mp h' with h1 | h2
        · exact absurd h1.symm hp
        · rw [ih h2]

theorem length_dinsert_of_mem (k : String) (v : α) (l : List (String × α))
    (h : k ∈ dkeys l) : (dinsert k v l).length = l.length := by
  have h1 : (dkeys (dinsert k v l)).length = (dkeys l).length := by
    rw [dkeys_dinsert_of_mem k v l h]
  simpa [dkeys] using h1

theorem mem_concatMap (f : α → List β) (l : List α) (a : α) (b : β)
    (ha : a ∈ l) (hb : b ∈ f a) : b ∈ concatMap f l := by
  induction l with
  | nil => exact absurd ha (List.not_mem_nil a)
  | cons x rest ih =>
      show b ∈ f x ++ concatMap f rest
      rcases List.mem_cons.mp ha with h1 | h2
      · exact List.mem_append_left _ (h1 ▸ hb)
      · exact List.mem_append_right _ (ih h2)

theorem mergePeople_eq (companyName : String) (people : List Person) :
    ∀ (contacts : List (String × Contact)) (acc : List Contact),
      mergePeople companyName people contacts acc =
        (mergeAllPeople companyName people contacts,
         acc ++ people.map (personToContact companyName)) := by
  induction people with
  | nil => intro contacts acc; simp [mergePeople, mergeAllPeople]
  | cons p rest ih =>
      intro contacts acc
      show mergePeople companyName rest
          (dinsert (personToContact companyName p).apollo_id
            (personToContact companyName p) contacts)
          (acc ++ [personToContact companyName p]) = _
      rw [ih]
      simp [mergeAllPeople, personToContact]

theorem enrichLoop_eq (searchFn : String → Except String (List Person))
    (cs : List Company) :
    ∀ (contacts : List (String × Contact)) (nc : List Contact)
      (evs : List Ev),
      enrichLoop searchFn cs contacts nc evs =
        (mergeAll searchFn cs contacts,
         nc ++ newContactsOf searchFn cs,
         evs ++ concatMap (companyBlock searchFn) cs) := by
  induction cs with
  | nil =>
      intro contacts nc evs
      simp [enrichLoop, mergeAll, newContactsOf, concatMap]
  | cons c rest ih =>
      intro contacts nc evs
      cases hs : searchFn c.name with
      | ok people =>
          simp only [enrichLoop, hs]
          rw [mergePeople_eq, ih]
          simp [mergeAll, newContactsOf, concatMap, companyBlock, hs]
      | error e =>
          simp only [enrichLoop, hs]
          rw [ih]
          simp [mergeAll, newContactsOf, concatMap, companyBlock, hs]

theorem enrichContacts_eq (sequence_id : String)
    (searchFn : String → Except String (List Person))
    (enrollOutcome : Except String Unit) (st : TrackerState) :
    enrichContacts sequence_id searchFn enrollOutcome st =
      .ok ({ st with
              contacts := mergeAll searchFn (dvalues st.companies) st.contacts },
           "Added " ++
             toString (newContactsOf searchFn (dvalues st.companies)).length ++
             " contacts to sequence",
           concatMap (companyBlock searchFn) (dvalues st.companies) ++
             (enrollBlock sequence_id searchFn st ++ [Ev.save])) := by
  unfold enrichContacts
  rw [enrichLoop_eq]
  simp only [List.nil_append]
  unfold enrollBlock
  cases hne : (newContactsOf searchFn (dvalues st.companies)).isEmpty
  · cases enrollOutcome <;> simp [hne]
  · cases enrollOutcome <;> simp [hne]

theorem mem_dkeys_mergeAllPeople_of_mem (companyName : String)
    (people : List Person) :
    ∀ (contacts : List (String × Contact)) (k : String),
      k ∈ dkeys contacts → k ∈ dkeys (mergeAllPeople companyName people contacts) := by
  induction people with
  | nil => intro contacts k h; exact h
  | cons p rest ih =>
      intro contacts k h
      show k ∈ dkeys (mergeAllPeople companyName rest
        (dinsert p.id (personToContact companyName p) contacts))
      exact ih _ k (mem_dkeys_dinsert_of_mem _ _ _ _ h)

theorem mem_dkeys_mergeAllPeople_self (companyName : String)
    (people : List Person) :
    ∀ (contacts : List (String × Contact)) (p : Person), p ∈ people →
      p.id ∈ dkeys (mergeAllPeople companyName people contacts) := by
  induction people with
  | nil => intro contacts p h; exact absurd h (List.not_mem_nil p)
  | cons q rest ih =>
      intro contacts p h
      show p.id ∈ dkeys (mergeAllPeople companyName rest
        (dinsert q.id (personToContact companyName q) contacts))
      rcases List.mem_cons.mp h with h1 | h2
      · exact mem_dkeys_mergeAllPeople_of_mem companyName rest _ _
          (h1 ▸ mem_dkeys_dinsert_self _ _ _)
      · exact ih _ p h2

theorem dkeys_mergeAllPeople_of_sub (companyName : String)
    (people : List Person) :
    ∀ (contacts : List (String × Contact)),
      (∀ p ∈ people, p.id ∈ dkeys contacts) →
      dkeys (mergeAllPeople companyName people contacts) = dkeys contacts := by
  induction people with
  | nil => intro contacts _; rfl
  | cons p rest ih =>
      intro contacts h
      show dkeys (mergeAllPeople companyName rest
        (dinsert p.id (personToContact companyName p) contacts)) = dkeys contacts
      have hself : p.id ∈ dkeys contacts := h p (List.mem_cons_self _ _)
      have hkeys : dkeys (dinsert p.id (personToContact companyName p) contacts)
          = dkeys contacts := dkeys_dinsert_of_mem _ _ _ hself
      rw [ih _ (fun q hq => by rw [hkeys]; exact h q (List.mem_cons_of_mem _ hq))]
      exact hkeys

theorem mem_dkeys_mergeAll_of_mem
    (searchFn : String → Except String (List Person)) (cs : List Company) :
    ∀ (contacts : List (String × Contact)) (k : String),
      k ∈ dkeys contacts → k ∈ dkeys (mergeAll searchFn cs contacts) := by
  induction cs with
  | nil => intro contacts k h; exact h
  | cons c rest ih =>
      intro contacts k h
      cases hs : searchFn c.name with
      | ok people =>
          simp only [mergeAll, hs]
          exact ih _ k (mem_dkeys_mergeAllPeople_of_mem _ _ _ k h)
      | error e =>
          simp only [mergeAll, hs]
          exact ih _ k h

theorem mem_dkeys_mergeAll_of_person
    (searchFn : String → Except String (List Person)) (cs : List Company) :
    ∀ (contacts : List (String × Contact)) (c : Company)
      (people : List Person) (p : Person),
      c ∈ cs → searchFn c.name = .ok people → p ∈ people →
      p.id ∈ dkeys (mergeAll searchFn cs contacts) := by
  induction cs with
  | nil => intro contacts c people p hc _ _; exact absurd hc (List.not_mem_nil c)
  | cons c0 rest ih =>
      intro contacts c people p hc hok hp
      rcases List.mem_cons.mp hc with h1 | h2
      · subst h1
        rw [show mergeAll searchFn (c :: rest) contacts
              = mergeAll searchFn rest (mergeAllPeople c.name people contacts) from by
            simp only [mergeAll, hok]]
        exact mem_dkeys_mergeAll_of_mem searchFn rest _ _
          (mem_dkeys_mergeAllPeople_self _ _ _ _ hp)
      · cases hs : searchFn c0.name with
        | ok people0 =>
            simp only [mergeAll, hs]
            exact ih _ c people p h2 hok hp
        | error e =>
            simp only [mergeAll, hs]
            exact ih _ c people p h2 hok hp

theorem dkeys_mergeAll_of_sub
    (searchFn : String → Except String (List Person)) (cs : List Company) :
    ∀ (contacts : List (String × Contact)),
      (∀ i ∈ successIds searchFn cs, i ∈ dkeys contacts) →
      dkeys (mergeAll searchFn cs contacts) = dkeys contacts := by
  induction cs with
  | nil => intro contacts _; rfl
  | cons c rest ih =>
      intro contacts h
      cases hs : searchFn c.name with
      | ok people =>
          simp only [mergeAll, hs]
          have hpeople : ∀ p ∈ people, p.id ∈ dkeys contacts := by
            intro p hp
            refine h p.id ?_
            show p.id ∈ (match searchFn c.name with
              | .ok people => people.map Person.id
              | .error _ => []) ++ successIds searchFn rest
            rw [hs]
            exact List.mem_append_left _ (List.mem_map_of_mem Person.id hp)
          have hkeys := dkeys_mergeAllPeople_of_sub c.name people contacts hpeople
          rw [ih _ (fun i hi => by
            rw [hkeys]
            refine h i ?_
            show i ∈ (match searchFn c.name with
              | .ok people => people.map Person.id
              | .error _ => []) ++ successIds searchFn rest
            rw [hs]
            exact List.mem_append_right _ hi)]
          exact hkeys
      | error e =>
          simp only [mergeAll, hs]
          refine ih _ (fun i hi => h i ?_)
          show i ∈ (match searchFn c.name with
            | .ok people => people.map Person.id
            | .error _ => []) ++ successIds searchFn rest
          rw [hs]
          exact List.mem_append_right _ hi

theorem length_newContactsOf
    (searchFn : String → Except String (List Person)) (cs : List Company) :
    (newContactsOf searchFn cs).length = (successIds searchFn cs).length := by
  induction cs with
  | nil => rfl
  | cons c rest ih =>
      show ((match searchFn c.name with
          | .ok people => people.map (personToContact c.name)
          | .error _ => []) ++ newContactsOf searchFn rest).length
        = ((match searchFn c.name with
          | .ok people => people.map Person.id
          | .error _ => []) ++ successIds searchFn rest).length
      cases hs : searchFn c.name <;> simp [ih]


theorem mergeCompanies_lookup_of_mem (now : Nat) (observed : List Company) :
    ∀ (tracked : List (String × Company)) (name : String) (cur : Company),
      dlookup name tracked = some cur →
      dlookup name (mergeCompanies now observed tracked) =
        some (if name ∈ observed.map Company.name
              then { cur with last_seen := now } else cur) := by
  induction observed with
  | nil => intro tracked name cur h; simpa [mergeCompanies] using h
  | cons c rest ih =>
      intro tracked name cur h
      have hstep : mergeCompanies now (c :: rest) tracked
          = mergeCompanies now rest (mergeStep now tracked c) := rfl
      rw [hstep]
      by_cases hcn : c.name = name
      · have hl : dlookup c.name tracked = some cur := by rw [hcn]; exact h
        have hstep2 : mergeStep now tracked c
            = dinsert c.name { cur with last_seen := now } tracked := by
          simp [mergeStep, hl]
        have hlook : dlookup name (mergeStep now tracked c)
            = some { cur with last_seen := now } := by
          rw [hstep2, dlookup_dinsert]
          simp [hcn]
        rw [ih _ name { cur with last_seen := now } hlook]
        have hmem : name ∈ (c :: rest).map Company.name :=
          List.mem_cons.mpr (Or.inl hcn.symm)
        rw [if_pos hmem]
        by_cases hr : name ∈ rest.map Company.name
        · rw [if_pos hr]
        · rw [if_neg hr]
      · have hlook : dlookup name (mergeStep now tracked c) = some cur := by
          unfold mergeStep
          cases hl : dlookup c.name tracked with
          | some old => rw [dlookup_dinsert]; simp only [if_neg hcn]; exact h
          | none => rw [dlookup_dinsert]; simp only [if_neg hcn]; exact h
        rw [ih _ name cur hlook]
        have hne : ¬ name = c.name := fun hh => hcn hh.symm
        simp [List.map_cons, List.mem_cons, hne]

theorem mergeCompanies_lookup_of_new (now : Nat) (observed : List Company) :
    ∀ (tracked : List (String × Company)) (name : String),
      dlookup name tracked = none →
      (∀ c ∈ observed, c.first_seen = now ∧ c.last_seen = now) →
      name ∈ observed.map Company.name →
      (dlookup name (mergeCompanies now observed tracked)).map Company.first_seen
          = some now ∧
      (dlookup name (mergeCompanies now observed tracked)).map Company.last_seen
          = some now := by
  induction observed with
  | nil => intro tracked name _ _ hmem; exact absurd hmem (by simp)
  | cons c rest ih =>
      intro tracked name hnone hobs hmem
      have hstep : mergeCompanies now (c :: rest) tracked
          = mergeCompanies now rest (mergeStep now tracked c) := rfl
      rw [hstep]
      by_cases hcn : c.name = name
      · have hl : dlookup c.name tracked = none := by rw [hcn]; exact hnone
        have hstep2 : mergeStep now tracked c = dinsert c.name c tracked := by
          simp [mergeStep, hl]
        have hlook : dlookup name (mergeStep now tracked c) = some c := by
          rw [hstep2, dlookup_dinsert]; simp [hcn]
        rw [mergeCompanies_lookup_of_mem now rest _ name c hlook]
        obtain ⟨hf, hl2⟩ := hobs c (List.mem_cons_self _ _)
        by_cases hr : name ∈ rest.map Company.name
        · simp [hr, hf]
        · simp [hr, hf, hl2]
      · have hlook : dlookup name (mergeStep now tracked c) = none := by
          unfold mergeStep
          cases hl : dlookup c.name tracked with
          | some old =>
              rw [dlookup_dinsert]; simp only [if_neg hcn]; exact hnone
          | none =>
              rw [dlookup_dinsert]; simp only [if_neg hcn]; exact hnone
        have hne : ¬ name = c.name := fun hh => hcn hh.symm
        have hmem2 : name ∈ rest.map Company.name := by
          have hmem' : name ∈ c.name :: rest.map Company.name := hmem
          rcases List.mem_cons.mp hmem' with h1 | h2
          · exact absurd h1 hne
          · exact h2
        exact ih _ name hlook
          (fun c2 hc2 => hobs c2 (List.mem_cons_of_mem _ hc2)) hmem2

theorem extract_companies_times (now : Nat)
    (sponsors attendees : List PageEntry) :
    ∀ c ∈ extract_companies now sponsors attendees,
      c.first_seen = now ∧ c.last_seen = now := by
  intro c hc
  unfold extract_companies at hc
  rcases List.mem_append.mp hc with h | h <;>
    (obtain ⟨e, _, rfl⟩ := List.mem_map.mp h; exact ⟨rfl, rfl⟩)

theorem enrollCount_append (a b : List Ev) :
    enrollCount (a ++ b) = enrollCount a + enrollCount b := by
  induction a with
  | nil => simp [enrollCount]
  | cons e rest ih => cases e <;> simp [enrollCount, ih] <;> omega

theorem enrollCount_companyBlocks
    (searchFn : String → Except String (List Person)) (cs : List Company) :
    enrollCount (concatMap (companyBlock searchFn) cs) = 0 := by
  induction cs with
  | nil => rfl
  | cons c rest ih =>
      show enrollCount (companyBlock searchFn c
        ++ concatMap (companyBlock searchFn) rest) = 0
      rw [enrollCount_append, ih]
      cases hs : searchFn c.name <;> simp [companyBlock, hs, enrollCount]

theorem enrollCount_enrollBlock (sequence_id : String)
    (searchFn : String → Except String (List Person)) (st : TrackerState) :
    enrollCount (enrollBlock sequence_id searchFn st) =
      if (newContactsOf searchFn (dvalues st.companies)).isEmpty
      then 0 else 1 := by
  unfold enrollBlock
  cases hne : (newContactsOf searchFn (dvalues st.companies)).isEmpty <;>
    simp [enrollCount, hne]

theorem logCount_append (a b : List Ev) :
    logCount (a ++ b) = logCount a + logCount b := by
  induction a with
  | nil => simp [logCount]
  | cons e rest ih => cases e <;> simp [logCount, ih] <;> omega

theorem logCount_companyBlocks
    (searchFn : String → Except String (List Person)) (cs : List Company) :
    logCount (concatMap (companyBlock searchFn) cs) = 0 := by
  induction cs with
  | nil => rfl
  | cons c rest ih =>
      show logCount (companyBlock searchFn c
        ++ concatMap (companyBlock searchFn) rest) = 0
      rw [logCount_append, ih]
      cases hs : searchFn c.name <;> simp [companyBlock, hs, logCount]

theorem logCount_enrollBlock (sequence_id : String)
    (searchFn : String → Except String (List Person)) (st : TrackerState) :
    logCount (enrollBlock sequence_id searchFn st) = 0 := by
  unfold enrollBlock
  cases hne : (newContactsOf searchFn (dvalues st.companies)).isEmpty <;>
    simp [logCount, hne]

theorem getLast_append_save (l : List Ev) :
    (l ++ [Ev.save]).getLast? = some Ev.save := by
  simp

theorem sleepBeforeNextSearch_of_all (evs : List Ev)
    (h : ∀ e ∈ evs, notSearch e = true) :
    sleepBeforeNextSearch evs = true := by
  induction evs with
  | nil => rfl
  | cons e rest ih =>
      cases e with
      | search n =>
          exact absurd (h _ (List.mem_cons_self _ _)) (by simp [notSearch])
      | sleep => rfl
      | logError m => exact ih (fun x hx => h x (List.mem_cons_of_mem _ hx))
      | enroll s ids => exact ih (fun x hx => h x (List.mem_cons_of_mem _ hx))
      | save => exact ih (fun x hx => h x (List.mem_cons_of_mem _ hx))

theorem searchesSleepSeparated_of_all (evs : List Ev)
    (h : ∀ e ∈ evs, notSearch e = true) :
    searchesSleepSeparated evs = true := by
  induction evs with
  | nil => rfl
  | cons e rest ih =>
      cases e with
      | search n =>
          exact absurd (h _ (List.mem_cons_self _ _)) (by simp [notSearch])
      | sleep => exact ih (fun x hx => h x (List.mem_cons_of_mem _ hx))
      | logError m => exact ih (fun x hx => h x (List.mem_cons_of_mem _ hx))
      | enroll s ids => exact ih (fun x hx => h x (List.mem_cons_of_mem _ hx))
      | save => exact ih (fun x hx => h x (List.mem_cons_of_mem _ hx))

theorem notSearch_enrollBlock_save (sequence_id : String)
    (searchFn : String → Except String (List Person)) (st : TrackerState) :
    ∀ e ∈ enrollBlock sequence_id searchFn st ++ [Ev.save],
      notSearch e = true := by
  intro e he
  rcases List.mem_append.mp he with h | h
  · unfold enrollBlock at h
    cases hne : (newContactsOf searchFn (dvalues st.companies)).isEmpty
    · simp [hne] at h
      rw [h]; rfl
    · simp [hne] at h
  · simp at h
    rw [h]; rfl

theorem searchesSleepSeparated_blocks
    (searchFn : String → Except String (List Person)) (cs : List Company)
    (rest : List Ev) (hrest : ∀ e ∈ rest, notSearch e = true)
    (hok : ∀ c ∈ cs, exceptOk (searchFn c.name) = true) :
    searchesSleepSeparated (concatMap (companyBlock searchFn) cs ++ rest)
      = true := by
  induction cs with
  | nil => simpa using searchesSleepSeparated_of_all rest hrest
  | cons c cs2 ih =>
      have hc := hok c (List.mem_cons_self _ _)
      cases hs : searchFn c.name with
      | error e => rw [hs] at hc; simp [exceptOk] at hc
      | ok people =>
          rw [show concatMap (companyBlock searchFn) (c :: cs2) ++ rest
                = Ev.search c.name :: Ev.sleep ::
                    (concatMap (companyBlock searchFn) cs2 ++ rest) from by
              simp [concatMap, companyBlock, hs]]
          show (sleepBeforeNextSearch (Ev.sleep ::
              (concatMap (companyBlock searchFn) cs2 ++ rest)) &&
            searchesSleepSeparated (Ev.sleep ::
              (concatMap (companyBlock searchFn) cs2 ++ rest))) = true
          rw [show sleepBeforeNextSearch (Ev.sleep ::
              (concatMap (companyBlock searchFn) cs2 ++ rest)) = true from rfl]
          rw [show searchesSleepSeparated (Ev.sleep ::
              (concatMap (companyBlock searchFn) cs2 ++ rest))
            = searchesSleepSeparated
                (concatMap (companyBlock searchFn) cs2 ++ rest) from rfl]
          rw [ih (fun x hx => hok x (List.mem_cons_of_mem _ hx))]
          rfl


/-- Claim C9: for every previous tracked-name set A and current
observed-name set B, the computed diff satisfies added = B∖A,
removed = A∖B, and added ∩ removed = ∅. -/
theorem c9_diff_sets (companies : List Company)
    (tracked : List (String × Company)) :
    (computeChanges companies tracked).1
        = (companies.map Company.name).toFinset \ (dkeys tracked).toFinset ∧
    (computeChanges companies tracked).2
        = (dkeys tracked).toFinset \ (companies.map Company.name).toFinset ∧
    (computeChanges companies tracked).1 ∩ (computeChanges companies tracked).2
        = ∅ :=
  ⟨rfl, rfl, Finset.disjoint_iff_inter_eq_empty.mp disjoint_sdiff_sdiff⟩

/-- Claim C10: an `enrich-contacts` run mutates only the contact mapping:
the company mapping and the `last_check` timestamp of the resulting state
are exactly those of the initial state, whatever the outcomes of the
external search and enroll calls. -/
theorem c10_enrich_frame (sequence_id : String)
    (searchFn : String → Except String (List Person))
    (enrollOutcome : Except String Unit) (st : TrackerState) :
    (resultState st
        (enrichContacts sequence_id searchFn enrollOutcome st)).companies
        = st.companies ∧
    (resultState st
        (enrichContacts sequence_id searchFn enrollOutcome st)).last_check
        = st.last_check := by
  rw [enrichContacts_eq]
  exact ⟨rfl, rfl⟩

/-- Claim C1 (code bug): with `last_check` unset, `get-changes` returns
the text "No previous scan to compare with"; but with `last_check` set it
raises `UnboundLocalError` for the never-assigned local `url` (server.py
line 271) instead of returning a text summary of added and removed
company names. -/
theorem c1_get_changes_raises :
    getChanges { companies := [("Acme", acme)], contacts := [],
                 last_check := some 3 }
        = .error (.unboundLocalError "url") ∧
    getChanges { companies := [], contacts := [], last_check := none }
        = .ok "No previous scan to compare with" :=
  ⟨rfl, rfl⟩

/-- Claim C4, counterexample: a `save_data` whose write fails after 3
characters leaves a file that is neither the prior snapshot `"OLD"` nor
the new serialization — the write is not all-or-nothing and the prior
snapshot is not left intact. -/
theorem c4_save_counterexample :
    (save_data stOne (some 3) (some "OLD")).2 = false ∧
    (save_data stOne (some 3) (some "OLD")).1 ≠ some "OLD" ∧
    (save_data stOne (some 3) (some "OLD")).1
        ≠ some (serializeState stOne) := by
  refine ⟨rfl, ?_, ?_⟩ <;> decide

/-- Claim C4, amended: `save_data` performs a plain truncating in-place
overwrite: a completed write replaces the snapshot wholly (regardless of
the prior file), and a write failing after `k` characters leaves exactly
the first `k` characters of the new serialization — the prior snapshot
is lost. -/
theorem c4_save_truncating (st : TrackerState) (fileState : Option String) :
    save_data st none fileState = (some (serializeState st), true) ∧
    ∀ k : Nat, save_data st (some k) fileState
        = (some ((serializeState st).take k), false) :=
  ⟨rfl, fun _ => rfl⟩

/-- Claim C2, counterexample: a run over one tracked company whose search
returns one contact whose id is already stored reports
"Added 1 contacts to sequence", while the count of distinct newly merged
ids is 0 — the reported N is not the distinct-newly-merged count. -/
theorem c2_count_counterexample :
    ¬ (resultMsg (enrichContacts "seq1" searchAllX (.ok ()) stPrior)
        = "Added " ++
            toString (specDistinctNewCount searchAllX
              (dvalues stPrior.companies) stPrior.contacts) ++
            " contacts to sequence") := by
  decide

/-- Claim C2, amended: the reported N in "Added N contacts to sequence"
equals the total number of contact records returned by the successful
search calls of the run — counting ids already present before the run
and counting duplicate ids each time they occur. -/
theorem c2_count_amended (sequence_id : String)
    (searchFn : String → Except String (List Person))
    (enrollOutcome : Except String Unit) (st : TrackerState) :
    resultMsg (enrichContacts sequence_id searchFn enrollOutcome st)
      = "Added " ++
          toString (successIds searchFn (dvalues st.companies)).length ++
          " contacts to sequence" := by
  rw [enrichContacts_eq]
  show "Added " ++
      toString (newContactsOf searchFn (dvalues st.companies)).length ++
      " contacts to sequence" = _
  rw [length_newContactsOf]


/-- Claim C3, counterexample: with two tracked companies where the first
search fails, the trace has two successive search calls with no sleep
between them (the `asyncio.sleep(1)` sits inside the `try` after the
merge, so a failed search skips it) — refuting that a delay is performed
between successive search calls regardless of success or failure. -/
theorem c3_delay_counterexample :
    ¬ (searchesSleepSeparated
        (resultEvs (enrichContacts "seq1" searchAcmeFails (.ok ()) stTwo))
        = true) := by
  decide

/-- Claim C3, amended: the trace of a run is the per-company blocks
followed by a search-free tail — each successful search is immediately
followed by the rate-limit sleep, while a failed search contributes only
its search call, so the next search begins without an intervening delay;
in particular when every search succeeds, successive search calls are
always separated by a sleep. -/
theorem c3_delay_amended (sequence_id : String)
    (searchFn : String → Except String (List Person))
    (enrollOutcome : Except String Unit) (st : TrackerState) :
    resultEvs (enrichContacts sequence_id searchFn enrollOutcome st)
        = concatMap (companyBlock searchFn) (dvalues st.companies) ++
            (enrollBlock sequence_id searchFn st ++ [Ev.save]) ∧
    (∀ e ∈ enrollBlock sequence_id searchFn st ++ [Ev.save],
        notSearch e = true) ∧
    ((∀ c ∈ dvalues st.companies, exceptOk (searchFn c.name) = true) →
      searchesSleepSeparated
        (resultEvs (enrichContacts sequence_id searchFn enrollOutcome st))
        = true) := by
  refine ⟨?_, notSearch_enrollBlock_save _ _ _, ?_⟩
  · rw [enrichContacts_eq]
    rfl
  · intro hok
    rw [enrichContacts_eq]
    show searchesSleepSeparated
      (concatMap (companyBlock searchFn) (dvalues st.companies) ++
        (enrollBlock sequence_id searchFn st ++ [Ev.save])) = true
    exact searchesSleepSeparated_blocks searchFn _ _
      (notSearch_enrollBlock_save _ _ _) hok

/-- Witness for the amended claim C3 at a concrete all-successful run. -/
theorem c3_delay_amended_witness :
    resultEvs (enrichContacts "seq1" searchAllX (.ok ()) stPrior)
        = concatMap (companyBlock searchAllX) (dvalues stPrior.companies) ++
            (enrollBlock "seq1" searchAllX stPrior ++ [Ev.save]) ∧
    searchesSleepSeparated
        (resultEvs (enrichContacts "seq1" searchAllX (.ok ()) stPrior))
        = true :=
  ⟨(c3_delay_amended "seq1" searchAllX (.ok ()) stPrior).1,
   (c3_delay_amended "seq1" searchAllX (.ok ()) stPrior).2.2 (by decide)⟩

/-- Claim C5, counterexample: in a concrete run the search for `"Acme"`
fails and the run continues to `"Bravo"`, yet no error-log notification
is delivered: the except-handler (server.py lines 234-238) calls the
async `send_log_message` without `await`, so the coroutine is discarded
unexecuted — the failure is not logged, refuting the "is logged" part of
the claim. -/
theorem c5_failure_not_logged :
    exceptOk (searchAcmeFails "Acme") = false ∧
    Ev.search "Acme"
      ∈ resultEvs (enrichContacts "seq1" searchAcmeFails (.ok ()) stTwo) ∧
    Ev.search "Bravo"
      ∈ resultEvs (enrichContacts "seq1" searchAcmeFails (.ok ()) stTwo) ∧
    logCount
        (resultEvs (enrichContacts "seq1" searchAcmeFails (.ok ()) stTwo))
      = 0 := by
  decide

/-- Claim C5, amended: a company's search failure is caught and the run
continues with the next company — one company's failure never raises out
of the operation, and the run completes and reports its result; the
failure is however not logged: the attempted log call is never awaited,
so no log notification is emitted in any run. -/
theorem c5_failure_isolated (sequence_id : String)
    (searchFn : String → Except String (List Person))
    (enrollOutcome : Except String Unit) (st : TrackerState) :
    exceptOk (enrichContacts sequence_id searchFn enrollOutcome st) = true ∧
    resultMsg (enrichContacts sequence_id searchFn enrollOutcome st)
      = "Added " ++
          toString (newContactsOf searchFn (dvalues st.companies)).length ++
          " contacts to sequence" ∧
    (∀ c ∈ dvalues st.companies,
      Ev.search c.name
        ∈ resultEvs (enrichContacts sequence_id searchFn enrollOutcome st)) ∧
    logCount
        (resultEvs (enrichContacts sequence_id searchFn enrollOutcome st))
      = 0 := by
  rw [enrichContacts_eq]
  refine ⟨rfl, rfl, ?_, ?_⟩
  · intro c hc
    show Ev.search c.name
      ∈ concatMap (companyBlock searchFn) (dvalues st.companies) ++
          (enrollBlock sequence_id searchFn st ++ [Ev.save])
    refine List.mem_append_left _ (mem_concatMap _ _ c _ hc ?_)
    cases hs : searchFn c.name <;> simp [companyBlock, hs]
  · show logCount
        (concatMap (companyBlock searchFn) (dvalues st.companies) ++
          (enrollBlock sequence_id searchFn st ++ [Ev.save]))
      = 0
    rw [logCount_append, logCount_companyBlocks, logCount_append,
        logCount_enrollBlock]
    simp [logCount]

/-- Witness for the amended claim C5 at a concrete run whose first
search fails. -/
theorem c5_failure_isolated_witness :
    exceptOk (enrichContacts "seq1" searchAcmeFails (.ok ()) stTwo) = true ∧
    Ev.search "Bravo"
      ∈ resultEvs (enrichContacts "seq1" searchAcmeFails (.ok ()) stTwo) ∧
    logCount
        (resultEvs (enrichContacts "seq1" searchAcmeFails (.ok ()) stTwo))
      = 0 := by
  have h := c5_failure_isolated "seq1" searchAcmeFails (.ok ()) stTwo
  exact ⟨h.1, h.2.2.1 bravo (by decide), h.2.2.2⟩

/-- Claim C6, counterexample: a concrete run accumulates one contact and
its enroll call fails (`enrollOutcome = .error "down"`), yet no
error-log notification is delivered — the handler (server.py lines
247-251) calls `send_log_message` without `await`, so the coroutine
never runs; the enroll failure is not logged, refuting the "logged" part
of the claim. -/
theorem c6_enroll_not_logged :
    Ev.enroll "seq1" ["x1"]
      ∈ resultEvs (enrichContacts "seq1" searchAllX (.error "down") stOne) ∧
    logCount
        (resultEvs (enrichContacts "seq1" searchAllX (.error "down") stOne))
      = 0 := by
  decide

/-- Claim C6, amended: after all companies are processed, the enroll
call happens exactly once with the accumulated batch iff the batch is
non-empty; an enroll failure is caught and not re-raised, but it is not
logged (the log call is never awaited, so no log notification is emitted
in any run); the save is the last event of every run; and the merged
contacts are in the final state regardless of the enroll outcome. -/
theorem c6_enroll_once_save (sequence_id : String)
    (searchFn : String → Except String (List Person))
    (enrollOutcome : Except String Unit) (st : TrackerState) :
    enrollCount
        (resultEvs (enrichContacts sequence_id searchFn enrollOutcome st))
        = (if (newContactsOf searchFn (dvalues st.companies)).isEmpty
           then 0 else 1) ∧
    ((newContactsOf searchFn (dvalues st.companies)).isEmpty = false →
      Ev.enroll sequence_id
          ((newContactsOf searchFn (dvalues st.companies)).map
            Contact.apollo_id)
        ∈ resultEvs (enrichContacts sequence_id searchFn enrollOutcome st)) ∧
    exceptOk (enrichContacts sequence_id searchFn enrollOutcome st) = true ∧
    logCount
        (resultEvs (enrichContacts sequence_id searchFn enrollOutcome st))
      = 0 ∧
    (resultEvs (enrichContacts sequence_id searchFn enrollOutcome st)).getLast?
        = some Ev.save ∧
    (resultState st
        (enrichContacts sequence_id searchFn enrollOutcome st)).contacts
        = mergeAll searchFn (dvalues st.companies) st.contacts := by
  rw [enrichContacts_eq]
  refine ⟨?_, ?_, rfl, ?_, ?_, rfl⟩
  · show enrollCount
        (concatMap (companyBlock searchFn) (dvalues st.companies) ++
          (enrollBlock sequence_id searchFn st ++ [Ev.save]))
      = _
    rw [enrollCount_append, enrollCount_companyBlocks, enrollCount_append,
        enrollCount_enrollBlock]
    simp [enrollCount]
  · intro hne
    show Ev.enroll sequence_id _
      ∈ concatMap (companyBlock searchFn) (dvalues st.companies) ++
          (enrollBlock sequence_id searchFn st ++ [Ev.save])
    refine List.mem_append_right _ (List.mem_append_left _ ?_)
    unfold enrollBlock
    rw [hne]
    simp
  · show logCount
        (concatMap (companyBlock searchFn) (dvalues st.companies) ++
          (enrollBlock sequence_id searchFn st ++ [Ev.save]))
      = 0
    rw [logCount_append, logCount_companyBlocks, logCount_append,
        logCount_enrollBlock]
    simp [logCount]
  · show (concatMap (companyBlock searchFn) (dvalues st.companies) ++
        (enrollBlock sequence_id searchFn st ++
          [Ev.save])).getLast? = some Ev.save
    rw [← List.append_assoc]
    exact getLast_append_save _

/-- Witness for the amended claim C6 at a concrete run with one new
contact and a failing enroll call. -/
theorem c6_enroll_once_save_witness :
    enrollCount
        (resultEvs (enrichContacts "seq1" searchAllX (.error "down") stOne))
        = 1 ∧
    Ev.enroll "seq1"
        ((newContactsOf searchAllX (dvalues stOne.companies)).map
          Contact.apollo_id)
      ∈ resultEvs (enrichContacts "seq1" searchAllX (.error "down") stOne) ∧
    (resultEvs
        (enrichContacts "seq1" searchAllX (.error "down") stOne)).getLast?
      = some Ev.save := by
  have h := c6_enroll_once_save "seq1" searchAllX (.error "down") stOne
  refine ⟨?_, h.2.1 (by decide), h.2.2.2.2.1⟩
  rw [h.1]
  decide

/-- Claim C7: merging extracted companies into the tracked mapping — a
name already tracked keeps its record except that `last_seen` becomes
`now` (and keeps it entirely when not re-observed); a new observed name
is inserted with `first_seen = last_seen = now`; hence a repeated merge
never changes the `first_seen` of an entry it finds present. -/
theorem c7_merge_companies (now : Nat) (sponsors attendees : List PageEntry)
    (tracked : List (String × Company)) :
    (∀ name old, dlookup name tracked = some old →
      dlookup name (mergeCompanies now
          (extract_companies now sponsors attendees) tracked)
        = some (if name ∈ (extract_companies now sponsors attendees).map
                    Company.name
                then { old with last_seen := now } else old)) ∧
    (∀ name, dlookup name tracked = none →
      name ∈ (extract_companies now sponsors attendees).map Company.name →
      (dlookup name (mergeCompanies now
          (extract_companies now sponsors attendees) tracked)).map
            Company.first_seen = some now ∧
      (dlookup name (mergeCompanies now
          (extract_companies now sponsors attendees) tracked)).map
            Company.last_seen = some now) ∧
    (∀ (now2 : Nat) (sp2 at2 : List PageEntry) (name : String) (c1 : Company),
      dlookup name (mergeCompanies now
          (extract_companies now sponsors attendees) tracked) = some c1 →
      (dlookup name (mergeCompanies now2 (extract_companies now2 sp2 at2)
          (mergeCompanies now (extract_companies now sponsors attendees)
            tracked))).map Company.first_seen = some c1.first_seen) := by
  refine ⟨?_, ?_, ?_⟩
  · intro name old h
    exact mergeCompanies_lookup_of_mem now _ tracked name old h
  · intro name h hmem
    exact mergeCompanies_lookup_of_new now _ tracked name h
      (extract_companies_times now sponsors attendees) hmem
  · intro now2 sp2 at2 name c1 h
    rw [mergeCompanies_lookup_of_mem now2 _ _ name c1 h]
    by_cases hr : name ∈ (extract_companies now2 sp2 at2).map Company.name
    · simp [hr]
    · simp [hr]

/-- Witness for claim C7: re-observing `Acme` at instant 5 only moves its
`last_seen` to 5 (keeping `first_seen = 1`, website and type), and the
newly observed `Bravo` is inserted with `first_seen = 5`. -/
theorem c7_merge_companies_witness :
    dlookup "Acme" (mergeCompanies 5
        (extract_companies 5 [⟨"Acme", "w2"⟩, ⟨"Bravo", "w3"⟩] [])
        [("Acme", acme)])
      = some { acme with last_seen := 5 } ∧
    (dlookup "Bravo" (mergeCompanies 5
        (extract_companies 5 [⟨"Acme", "w2"⟩, ⟨"Bravo", "w3"⟩] [])
        [("Acme", acme)])).map Company.first_seen = some 5 := by
  have h := c7_merge_companies 5 [⟨"Acme", "w2"⟩, ⟨"Bravo", "w3"⟩] []
    [("Acme", acme)]
  constructor
  · rw [h.1 "Acme" acme (by decide)]
    decide
  · exact (h.2.1 "Bravo" (by decide) (by decide)).1

/-- Claim C8: every contact id of a successful search result of the run
is present in the contact mapping afterwards, and when every returned id
was already stored the mapping size does not grow (insertion by id
overwrites in place). -/
theorem c8_contacts_present (sequence_id : String)
    (searchFn : String → Except String (List Person))
    (enrollOutcome : Except String Unit) (st : TrackerState) :
    (∀ c ∈ dvalues st.companies, ∀ people, searchFn c.name = .ok people →
      ∀ p ∈ people, p.id ∈ dkeys (resultState st
        (enrichContacts sequence_id searchFn enrollOutcome st)).contacts) ∧
    ((∀ i ∈ successIds searchFn (dvalues st.companies),
        i ∈ dkeys st.contacts) →
      (resultState st
          (enrichContacts sequence_id searchFn enrollOutcome st)).contacts.length
        = st.contacts.length) := by
  rw [enrichContacts_eq]
  constructor
  · intro c hc people hok p hp
    show p.id ∈ dkeys (mergeAll searchFn (dvalues st.companies) st.contacts)
    exact mem_dkeys_mergeAll_of_person searchFn _ _ c people p hc hok hp
  · intro hsub
    show (mergeAll searchFn (dvalues st.companies) st.contacts).length
      = st.contacts.length
    have hkeys := dkeys_mergeAll_of_sub searchFn _ st.contacts hsub
    have hlen : (dkeys (mergeAll searchFn (dvalues st.companies)
        st.contacts)).length = (dkeys st.contacts).length := by rw [hkeys]
    simpa [dkeys] using hlen

/-- Witness for claim C8 at a concrete run whose search result id `x1`
is already stored: the id is present afterwards and the mapping size is
unchanged. -/
theorem c8_contacts_present_witness :
    "x1" ∈ dkeys (resultState stPrior
        (enrichContacts "seq1" searchAllX (.ok ()) stPrior)).contacts ∧
    (resultState stPrior
        (enrichContacts "seq1" searchAllX (.ok ()) stPrior)).contacts.length
      = stPrior.contacts.length := by
  have h := c8_contacts_present "seq1" searchAllX (.ok ()) stPrior
  exact ⟨h.1 acme (by decide) [personX] rfl personX (by decide),
    h.2 (by decide)⟩

end EventTracker
